import Mathlib

/-!
Shallow embedding of `mdp/hinet/switchboard.py` (switchboard routing tables):
the generic `Switchboard`, its channel-grouping subclass, the three geometric
connection-table generators (`Rectangular2dSwitchboard`, `DoubleRect2dSwitchboard`,
`DoubleRhomb2dSwitchboard`) and the `CoordinateTranslator` utility.

Conventions of the embedding:
* Python ints are modelled as `ℕ` where the source only ever handles
  non-negative values, and as `ℤ` where intermediate values can be negative
  (the DoubleRhomb field ranges).  Python floor division and modulo on
  non-negative operands coincide with `Nat` division/modulo; on a negative
  dividend with positive divisor Python's `%` coincides with `Int`'s `%`
  (`Int.emod`), which is what the embedding uses.
* Fallible constructors return `Except SBError _`.  A Python
  `ZeroDivisionError` (reachable only for degenerate spacing or field-size
  parameters) is modelled by the distinguished error `SBError.divByZero`,
  raised at the same program point where the source would divide by zero.
* The sequential writes `connections[first_out_con : first_out_con + icd] = ...`
  always happen at the current fill position, so the loop nests are modelled
  as ordered concatenation (`rangeFlat`) in exactly the source's loop order.
-/

namespace MdpSwitchboard

/-- Error taxonomy for switchboard construction, one constructor per raise
site in `switchboard.py` (plus `divByZero` for Python `ZeroDivisionError`). -/
inductive SBError where
  | invalidConnections
  | fieldTooLarge
  | incompleteCoverage
  | oddFieldSize
  | shortRowDegenerate
  | incompatibleFieldSize
  | divByZero
  deriving DecidableEq

/-- Model of `CoordinateTranslator.__init__`: just the two grid dimensions. -/
structure CoordinateTranslator where
  x_image_dim : ℕ
  y_image_dim : ℕ
  deriving DecidableEq

/-- Model of `self._max_index = x_image_dim * y_image_dim - 1` (a Python int,
hence `ℤ`: for an empty grid it is `-1`). -/
def CoordinateTranslator.max_index (t : CoordinateTranslator) : ℤ :=
  (t.x_image_dim : ℤ) * (t.y_image_dim : ℤ) - 1

/-- Model of `CoordinateTranslator.image_to_index`; the coordinates handled by
this development are natural numbers, so the `0 ≤ x` half of the source's
range check holds automatically.  `none` models the raised exception. -/
def CoordinateTranslator.image_to_index (t : CoordinateTranslator) (x y : ℕ) : Option ℕ :=
  if x < t.x_image_dim then
    if y < t.y_image_dim then some (y * t.x_image_dim + x) else none
  else none

/-- Model of `CoordinateTranslator.array_to_index`. -/
def CoordinateTranslator.array_to_index (t : CoordinateTranslator) (row col : ℕ) : Option ℕ :=
  if row < t.y_image_dim then
    if col < t.x_image_dim then some (row * t.x_image_dim + col) else none
  else none

/-- Model of `CoordinateTranslator.index_to_array`: returns `(row, col)`. -/
def CoordinateTranslator.index_to_array (t : CoordinateTranslator) (index : ℕ) :
    Option (ℕ × ℕ) :=
  if (index : ℤ) ≤ t.max_index then
    some (index / t.x_image_dim, index % t.x_image_dim)
  else none

/-- Model of `CoordinateTranslator.index_to_image`: returns `(x, y)`. -/
def CoordinateTranslator.index_to_image (t : CoordinateTranslator) (index : ℕ) :
    Option (ℕ × ℕ) :=
  if (index : ℤ) ≤ t.max_index then
    some (index % t.x_image_dim, index / t.x_image_dim)
  else none

/-- Model of `numx.nanmax` on a (non-empty, integer) connection list. -/
def nanmax (l : List ℕ) : ℕ := l.foldr max 0

/-- Comparison of index/value pairs by value, the sort key of argsort. -/
def sndLE (p q : ℕ × ℕ) : Prop := p.2 ≤ q.2

instance : DecidableRel sndLE := fun p q => Nat.decLe p.2 q.2

instance : IsTotal (ℕ × ℕ) sndLE := ⟨fun a b => Nat.le_total a.2 b.2⟩

instance : IsTrans (ℕ × ℕ) sndLE := ⟨fun _ _ _ => Nat.le_trans⟩

/-- The list `[(0, l[0]), (1, l[1]), ...]` of positions paired with values. -/
def enumPairs (l : List ℕ) : List (ℕ × ℕ) :=
  (List.range l.length).map fun i => (i, l.getD i 0)

/-- Position/value pairs sorted (stably) by value. -/
def sortedPairs (l : List ℕ) : List (ℕ × ℕ) :=
  List.insertionSort sndLE (enumPairs l)

/-- Model of `numx.argsort(connections)`: the list of positions sorted
(stably) by the value stored at each position. -/
def argsort (l : List ℕ) : List ℕ :=
  (sortedPairs l).map Prod.fst

/-- The state of a fully constructed `Switchboard` node. -/
structure Switchboard where
  input_dim : ℕ
  output_dim : ℕ
  connections : List ℕ
  inverse_connections : Option (List ℕ)
  deriving DecidableEq

/-- Model of `Switchboard.__init__` (lines 44-62): reject an empty connection
list, reject a maximal entry `≥ input_dim`, set `output_dim = len(connections)`
and precompute `inverse_connections = argsort(connections)` exactly when
`input_dim == output_dim` and the number of distinct entries (the length of
`numx.unique(connections)`) equals `input_dim`. -/
def mkSwitchboard (input_dim : ℕ) (connections : List ℕ) : Except SBError Switchboard :=
  if connections.length = 0 then .error .invalidConnections
  else if input_dim ≤ nanmax connections then .error .invalidConnections
  else if input_dim = connections.length ∧ connections.dedup.length = input_dim then
    .ok ⟨input_dim, connections.length, connections, some (argsort connections)⟩
  else
    .ok ⟨input_dim, connections.length, connections, none⟩

/-- Model of `Switchboard.is_invertible`. -/
def Switchboard.is_invertible (sb : Switchboard) : Bool :=
  sb.inverse_connections.isSome

/-- Model of `Switchboard._execute` on a single data row:
`output[i] = x[connections[i]]`. -/
def Switchboard.execute {α : Type} [Inhabited α] (sb : Switchboard) (x : List α) : List α :=
  sb.connections.map fun i => x.getD i default

/-- Model of `Switchboard._inverse` on a single data row; `none` models the
raised exception for a non-invertible table. -/
def Switchboard.inverse {α : Type} [Inhabited α] (sb : Switchboard) (x : List α) :
    Option (List α) :=
  match sb.inverse_connections with
  | none => none
  | some inv => some (inv.map fun i => x.getD i default)

/-- The state of a constructed `ChannelSwitchboard`. -/
structure ChannelSwitchboard where
  sb : Switchboard
  out_channel_dim : ℕ
  in_channel_dim : ℕ
  output_channels : ℕ
  deriving DecidableEq

/-- Model of `ChannelSwitchboard.__init__`:
`output_channels = output_dim // out_channel_dim`. -/
def mkChannelSwitchboard (input_dim : ℕ) (connections : List ℕ)
    (out_channel_dim in_channel_dim : ℕ) : Except SBError ChannelSwitchboard :=
  (mkSwitchboard input_dim connections).map fun sb =>
    ⟨sb, out_channel_dim, in_channel_dim, sb.output_dim / out_channel_dim⟩

/-- Ordered emission of `for i in range(n): emit (f i)`: the concatenation of
the blocks `f 0, f 1, ..., f (n-1)` in loop order. -/
def rangeFlat : ℕ → (ℕ → List ℕ) → List ℕ
  | 0, _ => []
  | n + 1, f => rangeFlat n f ++ f n

/-- Connection generation loop of `Rectangular2dSwitchboard.__init__`
(lines 249-265), in the source's loop order from outermost in: `y_out_chan`,
`x_out_chan`, then over the field `x_in_chan` (outer) and `y_in_chan` (inner),
finally `in_channel_dim` consecutive slots.  The call
`in_trans.image_to_index(x_in_chan, y_in_chan)` is inlined as
`y_in_chan * x_in_channels + x_in_chan`; the claim theorems show that its
range checks always pass for parameters accepted by the constructor. -/
def rect2dConnections (x_in x_field y_field x_sp y_sp icd x_out y_out : ℕ) : List ℕ :=
  rangeFlat y_out fun y_out_chan =>
    rangeFlat x_out fun x_out_chan =>
      rangeFlat x_field fun dx =>
        rangeFlat y_field fun dy =>
          (List.range icd).map fun k =>
            ((y_out_chan * y_sp + dy) * x_in + (x_out_chan * x_sp + dx)) * icd + k

/-- The field-cell enumeration order that the spec text states for the
rectangular tiler (`y` rows outer, `x` columns inner) — written from the
spec's words, for comparison with `rect2dConnections` (which follows the
source and iterates `x` outer, `y` inner). -/
def rect2dConnectionsSpecOrder (x_in x_field y_field x_sp y_sp icd x_out y_out : ℕ) :
    List ℕ :=
  rangeFlat y_out fun y_out_chan =>
    rangeFlat x_out fun x_out_chan =>
      rangeFlat y_field fun dy =>
        rangeFlat x_field fun dx =>
          (List.range icd).map fun k =>
            ((y_out_chan * y_sp + dy) * x_in + (x_out_chan * x_sp + dx)) * icd + k

/-- The state of a constructed `Rectangular2dSwitchboard`. -/
structure Rectangular2dSwitchboard where
  cs : ChannelSwitchboard
  x_out_channels : ℕ
  y_out_channels : ℕ
  x_unused_channels : ℕ
  y_unused_channels : ℕ
  deriving DecidableEq

/-- Model of `Rectangular2dSwitchboard.__init__` (lines 174-271), with checks
in source order: field size versus grid size per axis, then per axis the
output-channel count `(in - field) // spacing + 1`, the unused-channel count
`(in - field) % spacing` (`0` when `in = field`) and the coverage check.
A zero spacing makes the source divide by zero at the `x_out_channels`
computation, modelled by `divByZero` at the same point. -/
def mkRectangular2d (x_in_channels y_in_channels x_field_channels y_field_channels
    x_field_spacing y_field_spacing in_channel_dim : ℕ) (ignore_cover : Bool) :
    Except SBError Rectangular2dSwitchboard :=
  let out_channel_dim := in_channel_dim * x_field_channels * y_field_channels
  if x_field_channels > x_in_channels then .error .fieldTooLarge
  else if y_field_channels > y_in_channels then .error .fieldTooLarge
  else if x_field_spacing = 0 then .error .divByZero
  else
    let x_out_channels := (x_in_channels - x_field_channels) / x_field_spacing + 1
    let x_unused_channels := (x_in_channels - x_field_channels) % x_field_spacing
    if x_unused_channels ≠ 0 ∧ ignore_cover = false then .error .incompleteCoverage
    else if y_field_spacing = 0 then .error .divByZero
    else
      let y_out_channels := (y_in_channels - y_field_channels) / y_field_spacing + 1
      let y_unused_channels := (y_in_channels - y_field_channels) % y_field_spacing
      if y_unused_channels ≠ 0 ∧ ignore_cover = false then .error .incompleteCoverage
      else
        (mkChannelSwitchboard (x_in_channels * y_in_channels * in_channel_dim)
            (rect2dConnections x_in_channels x_field_channels y_field_channels
              x_field_spacing y_field_spacing in_channel_dim x_out_channels y_out_channels)
            out_channel_dim in_channel_dim).map fun cs =>
          ⟨cs, x_out_channels, y_out_channels, x_unused_channels, y_unused_channels⟩

/-- Holds when the input channel with x-coordinate `c` lies inside at least
one field of the x-axis tiling (fields start at `i * x_sp`, `i < x_out`, and
have width `x_field`). -/
def xCovered (x_field x_sp x_out c : ℕ) : Prop :=
  ∃ i, i < x_out ∧ i * x_sp ≤ c ∧ c < i * x_sp + x_field

instance (x_field x_sp x_out c : ℕ) : Decidable (xCovered x_field x_sp x_out c) :=
  decidable_of_iff (∃ i ∈ List.range x_out, i * x_sp ≤ c ∧ c < i * x_sp + x_field)
    (by simp [xCovered, List.mem_range])

/-- Long-row (aligned) connection block of `DoubleRect2dSwitchboard.__init__`
(lines 411-430): loop order `y_out_chan`, `x_out_chan`, then `y_in_chan`
(outer), `x_in_chan` (inner), with field starts at multiples of
`2 * field_spacing`. -/
def doubleRectLongConns (x_in x_sp y_sp x_field y_field icd exo eyo : ℕ) : List ℕ :=
  rangeFlat eyo fun y_out_chan =>
    rangeFlat exo fun x_out_chan =>
      rangeFlat y_field fun dy =>
        rangeFlat x_field fun dx =>
          (List.range icd).map fun k =>
            ((y_out_chan * (2 * y_sp) + dy) * x_in
              + (x_out_chan * (2 * x_sp) + dx)) * icd + k

/-- Short-row (offset) connection block of `DoubleRect2dSwitchboard.__init__`
(lines 431-450): one fewer channel per axis, field starts shifted by
`field_spacing` on both axes. -/
def doubleRectShortConns (x_in x_sp y_sp x_field y_field icd exo eyo : ℕ) : List ℕ :=
  rangeFlat (eyo - 1) fun y_out_chan =>
    rangeFlat (exo - 1) fun x_out_chan =>
      rangeFlat y_field fun dy =>
        rangeFlat x_field fun dx =>
          (List.range icd).map fun k =>
            ((y_out_chan * (2 * y_sp) + y_sp + dy) * x_in
              + (x_out_chan * (2 * x_sp) + x_sp + dx)) * icd + k

/-- Total output-channel count of the double-rectangular tiling
(`out_channels = xl * yl + (xl-1) * (yl-1)`, line 406). -/
def doubleRectOutChannels (xl yl : ℕ) : ℕ := xl * yl + (xl - 1) * (yl - 1)

/-- The state of a constructed `DoubleRect2dSwitchboard`. -/
structure DoubleRect2dSwitchboard where
  cs : ChannelSwitchboard
  x_long_out_channels : ℕ
  y_long_out_channels : ℕ
  x_unused_channels : ℕ
  y_unused_channels : ℕ
  deriving DecidableEq

/-- Model of `DoubleRect2dSwitchboard.__init__` (lines 321-455), checks in
source order: evenness of both field sizes, field versus grid size,
then per axis the long-row channel count `in // field`, the coverage check
against `spacing = field // 2` and the short-row degeneracy check
`(in - long * field) ≥ field / 2`.  A zero field size makes the source divide
by zero at the long-channel-count computation (`divByZero` here).  The
connection table is the long-row block followed by the short-row block, with
`even_x_out_channels = x_in // (2 * x_sp)` as in lines 412-413. -/
def mkDoubleRect2d (x_in y_in x_field y_field icd : ℕ) (ignore_cover : Bool) :
    Except SBError DoubleRect2dSwitchboard :=
  if x_field % 2 ≠ 0 then .error .oddFieldSize
  else if y_field % 2 ≠ 0 then .error .oddFieldSize
  else if x_field > x_in then .error .fieldTooLarge
  else if y_field > y_in then .error .fieldTooLarge
  else if x_field = 0 then .error .divByZero
  else if (x_in - x_field) % (x_field / 2) ≠ 0 ∧ ignore_cover = false then
    .error .incompleteCoverage
  else if x_field / 2 ≤ x_in - x_in / x_field * x_field then .error .shortRowDegenerate
  else if y_field = 0 then .error .divByZero
  else if (y_in - y_field) % (y_field / 2) ≠ 0 ∧ ignore_cover = false then
    .error .incompleteCoverage
  else if y_field / 2 ≤ y_in - y_in / y_field * y_field then .error .shortRowDegenerate
  else
    (mkChannelSwitchboard (x_in * y_in * icd)
        (doubleRectLongConns x_in (x_field / 2) (y_field / 2) x_field y_field icd
            (x_in / (2 * (x_field / 2))) (y_in / (2 * (y_field / 2)))
          ++ doubleRectShortConns x_in (x_field / 2) (y_field / 2) x_field y_field icd
            (x_in / (2 * (x_field / 2))) (y_in / (2 * (y_field / 2))))
        (icd * x_field * y_field) icd).map fun cs =>
      ⟨cs, x_in / x_field, y_in / y_field, (x_in - x_field) % (x_field / 2),
        (y_in - y_field) % (y_field / 2)⟩

/-- Result of the validation / dimension-computation phase of
`DoubleRhomb2dSwitchboard.__init__` (lines 487-542). -/
structure DoubleRhombSetup where
  started_in_short : ℤ
  x_chan_field_range : ℤ
  y_chan_field_range : ℤ
  input_dim : ℕ
  out_channel_dim : ℕ
  x_out_channels : ℤ
  y_out_channels : ℤ
  deriving DecidableEq

/-- Model of `started_in_short` (lines 500-503): `1` when there are fewer
long channels in the x-direction than in the y-direction, else `0`. -/
def rhombStartedInShort (x_long y_long : ℕ) : ℤ :=
  if x_long < y_long then 1 else 0

/-- Model of `_x_chan_field_range` (lines 510-511), a Python int (can be
negative). -/
def rhombXRange (x_long y_long diag : ℕ) : ℤ :=
  (x_long : ℤ) - (1 - rhombStartedInShort x_long y_long) - (diag : ℤ)

/-- Model of `_y_chan_field_range` (lines 512-513). -/
def rhombYRange (x_long y_long diag : ℕ) : ℤ :=
  (y_long : ℤ) - rhombStartedInShort x_long y_long - (diag : ℤ)

/-- Model of the validation and dimension computations of
`DoubleRhomb2dSwitchboard.__init__` (lines 487-542): `started_in_short`,
the evenness check on `diag_field_channels`, the two field-range
compatibility checks (Python `%` on a possibly negative dividend with the
positive divisor `diag // 2` agrees with `Int`'s `%`), `input_dim`,
`out_channel_dim` and the two output-channel counts.  A zero
`diag_field_channels` makes the source divide by zero inside the first range
check (`divByZero` here).  `input_dim` is computed in `ℕ`; for all parameters
passing the range checks `x_long, y_long ≥ 2`, so the subtraction never
truncates and the value agrees with Python's
`(2*x*y - x - y + 1) * in_channel_dim`. -/
def mkDoubleRhombSetup (x_long_in_channels y_long_in_channels diag_field_channels icd : ℕ) :
    Except SBError DoubleRhombSetup :=
  if diag_field_channels % 2 ≠ 0 then .error .oddFieldSize
  else if diag_field_channels = 0 then .error .divByZero
  else if rhombXRange x_long_in_channels y_long_in_channels diag_field_channels
        % ((diag_field_channels : ℤ) / 2) ≠ 0
      ∨ rhombXRange x_long_in_channels y_long_in_channels diag_field_channels < 0 then
    .error .incompatibleFieldSize
  else if rhombYRange x_long_in_channels y_long_in_channels diag_field_channels
        % ((diag_field_channels : ℤ) / 2) ≠ 0
      ∨ rhombYRange x_long_in_channels y_long_in_channels diag_field_channels < 0 then
    .error .incompatibleFieldSize
  else
    .ok ⟨rhombStartedInShort x_long_in_channels y_long_in_channels,
      rhombXRange x_long_in_channels y_long_in_channels diag_field_channels,
      rhombYRange x_long_in_channels y_long_in_channels diag_field_channels,
      (2 * x_long_in_channels * y_long_in_channels + 1
        - x_long_in_channels - y_long_in_channels) * icd,
      icd * diag_field_channels ^ 2,
      2 * rhombXRange x_long_in_channels y_long_in_channels diag_field_channels
        / (diag_field_channels : ℤ) + 1,
      2 * rhombYRange x_long_in_channels y_long_in_channels diag_field_channels
        / (diag_field_channels : ℤ) + 1⟩

/-! ### Helper lemmas -/

theorem rangeFlat_length {f : ℕ → List ℕ} {m : ℕ} :
    ∀ {n : ℕ}, (∀ i, i < n → (f i).length = m) → (rangeFlat n f).length = n * m
  | 0, _ => by simp [rangeFlat]
  | n + 1, h => by
    have ih := rangeFlat_length (f := f) (m := m) (n := n) fun i hi => h i (Nat.lt_succ_of_lt hi)
    simp [rangeFlat, ih, h n (Nat.lt_succ_self n), Nat.succ_mul]

theorem rangeFlat_getD {f : ℕ → List ℕ} {m : ℕ} :
    ∀ {n : ℕ}, (∀ i, i < n → (f i).length = m) →
      ∀ {a b : ℕ}, a < n → b < m → ∀ d : ℕ,
        (rangeFlat n f).getD (a * m + b) d = (f a).getD b d
  | 0, _, _, _, ha, _, _ => absurd ha (Nat.not_lt_zero _)
  | n + 1, h, a, b, ha, hb, d => by
    have hlen : (rangeFlat n f).length = n * m :=
      rangeFlat_length fun i hi => h i (Nat.lt_succ_of_lt hi)
    rcases Nat.lt_succ_iff_lt_or_eq.mp ha with ha' | rfl
    · have hidx : a * m + b < n * m := by
        calc a * m + b < a * m + m := by omega
        _ = (a + 1) * m := by ring
        _ ≤ n * m := Nat.mul_le_mul_right m ha'
      rw [rangeFlat, List.getD_append _ _ _ _ (by rw [hlen]; exact hidx)]
      exact rangeFlat_getD (fun i hi => h i (Nat.lt_succ_of_lt hi)) ha' hb d
    · rw [rangeFlat, List.getD_append_right _ _ _ _ (by rw [hlen]; exact Nat.le_add_right _ _),
        hlen]
      congr 1
      omega

theorem mem_rangeFlat {f : ℕ → List ℕ} {x : ℕ} :
    ∀ {n : ℕ}, (x ∈ rangeFlat n f ↔ ∃ i, i < n ∧ x ∈ f i)
  | 0 => by simp [rangeFlat]
  | n + 1 => by
    rw [rangeFlat, List.mem_append, mem_rangeFlat (n := n)]
    constructor
    · rintro (⟨i, hi, hx⟩ | hx)
      · exact ⟨i, Nat.lt_succ_of_lt hi, hx⟩
      · exact ⟨n, Nat.lt_succ_self n, hx⟩
    · rintro ⟨i, hi, hx⟩
      rcases Nat.lt_succ_iff_lt_or_eq.mp hi with hi' | rfl
      · exact Or.inl ⟨i, hi', hx⟩
      · exact Or.inr hx

theorem map_getD {α β : Type} (f : α → β) (l : List α) {i : ℕ} (hi : i < l.length)
    (d : α) (d2 : β) : (l.map f).getD i d2 = f (l.getD i d) := by
  rw [List.getD_eq_getElem _ _ (by simpa using hi), List.getElem_map,
    List.getD_eq_getElem _ _ hi]

theorem range_map_getD {α : Type} (f : ℕ → α) {n b : ℕ} (hb : b < n) (d : α) :
    ((List.range n).map f).getD b d = f b := by
  rw [map_getD f _ (by simpa using hb) 0 d, List.getD_eq_getElem _ _ (by simpa using hb),
    List.getElem_range]

theorem le_nanmax {l : List ℕ} : ∀ e ∈ l, e ≤ nanmax l := by
  induction l with
  | nil => intro e he; cases he
  | cons a t ih =>
    intro e he
    rcases List.mem_cons.mp he with rfl | ht
    · exact le_max_left _ _
    · exact le_trans (ih e ht) (le_max_right _ _)

theorem nanmax_mem {l : List ℕ} (h : l ≠ []) : nanmax l ∈ l := by
  induction l with
  | nil => exact absurd rfl h
  | cons a t ih =>
    cases t with
    | nil => simp [nanmax]
    | cons b t2 =>
      have hnm : nanmax (a :: b :: t2) = max a (nanmax (b :: t2)) := rfl
      rcases max_choice a (nanmax (b :: t2)) with hm | hm
      · rw [hnm, hm]
        exact List.mem_cons_self _ _
      · rw [hnm, hm]
        exact List.mem_cons_of_mem _ (ih (by simp))

theorem nanmax_lt_iff {l : List ℕ} (hne : l ≠ []) {n : ℕ} :
    nanmax l < n ↔ ∀ e ∈ l, e < n := by
  constructor
  · exact fun h e he => lt_of_le_of_lt (le_nanmax e he) h
  · exact fun h => h _ (nanmax_mem hne)

theorem mkSwitchboard_ok {n : ℕ} {conns : List ℕ} {sb : Switchboard}
    (h : mkSwitchboard n conns = .ok sb) :
    sb.input_dim = n ∧ sb.output_dim = conns.length ∧ sb.connections = conns ∧
    conns ≠ [] ∧ nanmax conns < n ∧
    sb.inverse_connections
      = if n = conns.length ∧ conns.dedup.length = n then some (argsort conns)
        else none := by
  unfold mkSwitchboard at h
  split at h
  · exact absurd h (by simp)
  · rename_i h0
    split at h
    · exact absurd h (by simp)
    · rename_i h1
      split at h
      · rename_i hc
        simp only [Except.ok.injEq] at h
        subst h
        exact ⟨rfl, rfl, rfl, fun he => h0 (by simp [he]), by omega, by rw [if_pos hc]⟩
      · rename_i hc
        simp only [Except.ok.injEq] at h
        subst h
        exact ⟨rfl, rfl, rfl, fun he => h0 (by simp [he]), by omega, by rw [if_neg hc]⟩

theorem mkSwitchboard_ok_of {n : ℕ} {conns : List ℕ} (hne : conns ≠ [])
    (hlt : ∀ e ∈ conns, e < n) :
    mkSwitchboard n conns
      = .ok ⟨n, conns.length, conns,
          if n = conns.length ∧ conns.dedup.length = n then some (argsort conns)
          else none⟩ := by
  have h0 : ¬ conns.length = 0 := fun h => hne (List.length_eq_zero.mp h)
  have h1 : ¬ n ≤ nanmax conns := not_le.mpr ((nanmax_lt_iff hne).mpr hlt)
  unfold mkSwitchboard
  rw [if_neg h0, if_neg h1]
  split <;> rfl

theorem mkChannelSwitchboard_ok {n : ℕ} {conns : List ℕ} {ocd icd : ℕ}
    {cs : ChannelSwitchboard} (h : mkChannelSwitchboard n conns ocd icd = .ok cs) :
    mkSwitchboard n conns = .ok cs.sb ∧ cs.out_channel_dim = ocd ∧
    cs.in_channel_dim = icd ∧ cs.output_channels = cs.sb.output_dim / ocd := by
  unfold mkChannelSwitchboard at h
  cases hm : mkSwitchboard n conns with
  | error e => rw [hm] at h; exact absurd h (by simp [Except.map])
  | ok sb =>
    rw [hm] at h
    simp only [Except.map, Except.ok.injEq] at h
    subst h
    exact ⟨rfl, rfl, rfl, rfl⟩

/-! ### C9: CoordinateTranslator round trips -/

/-- C9: for every `CoordinateTranslator` with in-range image coordinates
`(x, y)` and in-range flat index `i`: `image_to_index (x, y) = y * x_dim + x`,
`index_to_image (image_to_index (x, y)) = (x, y)` and
`array_to_index (index_to_array i) = i`. -/
theorem coordinate_translator_roundtrip (xd yd x y i : ℕ)
    (hx : x < xd) (hy : y < yd) (hi : i < xd * yd) :
    (CoordinateTranslator.mk xd yd).image_to_index x y = some (y * xd + x) ∧
    ((CoordinateTranslator.mk xd yd).image_to_index x y).bind
        (CoordinateTranslator.mk xd yd).index_to_image = some (x, y) ∧
    ((CoordinateTranslator.mk xd yd).index_to_array i).bind
        (fun rc => (CoordinateTranslator.mk xd yd).array_to_index rc.1 rc.2) = some i := by
  have hxd : 0 < xd := by omega
  have h1 : (CoordinateTranslator.mk xd yd).image_to_index x y = some (y * xd + x) := by
    unfold CoordinateTranslator.image_to_index
    rw [if_pos hx, if_pos hy]
  refine ⟨h1, ?_, ?_⟩
  · rw [h1]
    show (CoordinateTranslator.mk xd yd).index_to_image (y * xd + x) = some (x, y)
    unfold CoordinateTranslator.index_to_image CoordinateTranslator.max_index
    have hb : y * xd + x < xd * yd := by
      calc y * xd + x < y * xd + xd := by omega
      _ = (y + 1) * xd := by ring
      _ ≤ yd * xd := Nat.mul_le_mul_right xd hy
      _ = xd * yd := Nat.mul_comm yd xd
    rw [if_pos (by push_cast; omega)]
    have hmod : (y * xd + x) % xd = x := by
      rw [Nat.mul_comm y xd, Nat.mul_add_mod, Nat.mod_eq_of_lt hx]
    have hdiv : (y * xd + x) / xd = y := by
      rw [Nat.mul_comm y xd, Nat.mul_add_div hxd, Nat.div_eq_of_lt hx, Nat.add_zero]
    rw [hmod, hdiv]
  · unfold CoordinateTranslator.index_to_array CoordinateTranslator.max_index
    rw [if_pos (by push_cast; omega)]
    show (CoordinateTranslator.mk xd yd).array_to_index (i / xd) (i % xd) = some i
    unfold CoordinateTranslator.array_to_index
    have hrow : i / xd < yd := Nat.div_lt_of_lt_mul (by omega)
    have hcol : i % xd < xd := Nat.mod_lt i hxd
    rw [if_pos hrow, if_pos hcol]
    rw [Nat.mul_comm (i / xd) xd]
    rw [Nat.div_add_mod i xd]

/-- Witness for C9 at `xd = 3, yd = 2, (x, y) = (2, 1), i = 5`. -/
theorem coordinate_translator_roundtrip_witness :
    (CoordinateTranslator.mk 3 2).image_to_index 2 1 = some 5 ∧
    ((CoordinateTranslator.mk 3 2).image_to_index 2 1).bind
        (CoordinateTranslator.mk 3 2).index_to_image = some (2, 1) ∧
    ((CoordinateTranslator.mk 3 2).index_to_array 5).bind
        (fun rc => (CoordinateTranslator.mk 3 2).array_to_index rc.1 rc.2) = some 5 :=
  coordinate_translator_roundtrip 3 2 2 1 5 (by decide) (by decide) (by decide)

/-! ### C8: Switchboard construction validation -/

/-- C8: constructing a `Switchboard` with an empty connection list fails with
`invalidConnections`; a list containing an entry `≥ input_dim` fails with
`invalidConnections`; a non-empty list with all entries `< input_dim`
succeeds with `output_dim = len(connections)`. -/
theorem switchboard_construction (n : ℕ) (conns1 conns2 : List ℕ)
    (h1 : ∃ e ∈ conns1, n ≤ e) (h2 : conns2 ≠ []) (h3 : ∀ e ∈ conns2, e < n) :
    mkSwitchboard n [] = .error .invalidConnections ∧
    mkSwitchboard n conns1 = .error .invalidConnections ∧
    (mkSwitchboard n conns2).toOption.map Switchboard.output_dim = some conns2.length := by
  refine ⟨rfl, ?_, ?_⟩
  · obtain ⟨e, he, hen⟩ := h1
    have hne : conns1 ≠ [] := fun h => by subst h; cases he
    have h0 : ¬ conns1.length = 0 := fun h => hne (List.length_eq_zero.mp h)
    have h1' : n ≤ nanmax conns1 := le_trans hen (le_nanmax e he)
    unfold mkSwitchboard
    rw [if_neg h0, if_pos h1']
  · rw [mkSwitchboard_ok_of h2 h3]
    rfl

/-- Witness for C8 at `n = 3`, rejecting `[3, 0]` and accepting `[2, 0]`. -/
theorem switchboard_construction_witness :
    mkSwitchboard 3 [] = .error .invalidConnections ∧
    mkSwitchboard 3 [3, 0] = .error .invalidConnections ∧
    (mkSwitchboard 3 [2, 0]).toOption.map Switchboard.output_dim = some [2, 0].length :=
  switchboard_construction 3 [3, 0] [2, 0] (by decide) (by decide) (by decide)

/-! ### C2: the rectangular coverage check misses gaps between fields -/

/-- C2: failing input for the coverage check.  With
`x_in_channels = 5, y_in_channels = 1, field 1 x 1, x_field_spacing = 2,
ignore_cover = False` the fields sit at x-positions 0, 2, 4, so input channel
`x = 1` is covered by no field, yet `x_unused_channels = (5 - 1) % 2 = 0` and
construction succeeds (routing only channels 0, 2, 4) instead of raising the
coverage exception. -/
theorem rect2d_coverage_gap :
    (mkRectangular2d 5 1 1 1 2 1 1 false).toOption.map
        (fun r => (r.x_out_channels, r.x_unused_channels, r.cs.sb.connections))
      = some (3, 0, [0, 2, 4]) ∧
    ¬ xCovered 1 2 3 1 := by decide

/-! ### C1: generation order of the rectangular connection table -/

/-- C1 counterexample: at `x_in = y_in = 2`, `field 2 x 2`, `spacing 1`,
`in_channel_dim 1` the source enumerates the field cells with `x` as the
outer loop and emits `[0, 2, 1, 3]`, while the claimed (y outer, x inner)
order would emit `[0, 1, 2, 3]`. -/
theorem rect2d_spec_order_counterexample :
    (mkRectangular2d 2 2 2 2 1 1 1 false).toOption.map
        (fun r => r.cs.sb.connections) = some [0, 2, 1, 3] ∧
    rect2dConnectionsSpecOrder 2 2 2 1 1 1 1 1 = [0, 1, 2, 3] ∧
    (mkRectangular2d 2 2 2 2 1 1 1 false).toOption.map
        (fun r => r.cs.sb.connections)
      ≠ some (rect2dConnectionsSpecOrder 2 2 2 1 1 1 1 1) := by decide

/-! ### Correctness of the argsort model -/

theorem enumPairs_length (l : List ℕ) : (enumPairs l).length = l.length := by
  simp [enumPairs]

theorem mem_enumPairs {l : List ℕ} {p : ℕ × ℕ} :
    p ∈ enumPairs l ↔ p.1 < l.length ∧ p.2 = l.getD p.1 0 := by
  constructor
  · intro hp
    simp only [enumPairs, List.mem_map, List.mem_range] at hp
    obtain ⟨i, hi, rfl⟩ := hp
    exact ⟨hi, rfl⟩
  · rintro ⟨h1, h2⟩
    simp only [enumPairs, List.mem_map, List.mem_range]
    refine ⟨p.1, h1, ?_⟩
    obtain ⟨a, b⟩ := p
    simp only at h2 ⊢
    rw [h2]

theorem enumPairs_map_fst (l : List ℕ) :
    (enumPairs l).map Prod.fst = List.range l.length := by
  unfold enumPairs
  rw [List.map_map]
  have h : (Prod.fst ∘ fun i => ((i, l.getD i 0) : ℕ × ℕ)) = id := rfl
  rw [h, List.map_id]

theorem enumPairs_map_snd (l : List ℕ) :
    (enumPairs l).map Prod.snd = l := by
  apply List.ext_getElem
  · simp [enumPairs]
  · intro i h1 h2
    simp only [enumPairs, List.getElem_map, List.getElem_range]
    exact List.getD_eq_getElem _ _ h2

theorem sortedPairs_perm (l : List ℕ) : (sortedPairs l).Perm (enumPairs l) :=
  List.perm_insertionSort sndLE (enumPairs l)

theorem sortedPairs_length (l : List ℕ) : (sortedPairs l).length = l.length := by
  rw [(sortedPairs_perm l).length_eq, enumPairs_length]

theorem argsort_perm_range (l : List ℕ) : (argsort l).Perm (List.range l.length) := by
  have h := (sortedPairs_perm l).map Prod.fst
  rwa [enumPairs_map_fst] at h

theorem argsort_length (l : List ℕ) : (argsort l).length = l.length := by
  rw [(argsort_perm_range l).length_eq, List.length_range]

theorem sortedPairs_map_snd_sorted (l : List ℕ) :
    List.Sorted (· ≤ ·) ((sortedPairs l).map Prod.snd) :=
  List.pairwise_map.mpr (List.sorted_insertionSort sndLE (enumPairs l))

theorem sortedPairs_map_snd_eq_range {l : List ℕ} {n : ℕ} (h : l.Perm (List.range n)) :
    (sortedPairs l).map Prod.snd = List.range n := by
  have hperm : ((sortedPairs l).map Prod.snd).Perm (List.range n) := by
    have h2 := (sortedPairs_perm l).map Prod.snd
    rw [enumPairs_map_snd] at h2
    exact h2.trans h
  exact List.eq_of_perm_of_sorted hperm (sortedPairs_map_snd_sorted l)
    (List.pairwise_le_range n)

theorem argsort_getD {l : List ℕ} {n : ℕ} (h : l.Perm (List.range n)) {j : ℕ} (hj : j < n) :
    l.getD ((argsort l).getD j 0) 0 = j := by
  have hlen : l.length = n := by rw [h.length_eq, List.length_range]
  have hjs : j < (sortedPairs l).length := by rw [sortedPairs_length, hlen]; exact hj
  have h1 : (argsort l).getD j 0 = ((sortedPairs l).getD j (0, 0)).1 := by
    rw [argsort]
    exact map_getD Prod.fst _ hjs (0, 0) 0
  have hmem : (sortedPairs l).getD j (0, 0) ∈ sortedPairs l := by
    rw [List.getD_eq_getElem _ _ hjs]
    exact List.getElem_mem hjs
  have hp := mem_enumPairs.mp ((sortedPairs_perm l).subset hmem)
  have h2 : ((sortedPairs l).getD j (0, 0)).2 = j := by
    have hm : ((sortedPairs l).map Prod.snd).getD j 0 = j := by
      rw [sortedPairs_map_snd_eq_range h, List.getD_eq_getElem _ _ (by simpa using hj),
        List.getElem_range]
    rw [map_getD Prod.snd _ hjs (0, 0) 0] at hm
    exact hm
  rw [h1, ← hp.2]
  exact h2

theorem conns_perm_range {n : ℕ} {conns : List ℕ} (hlen : conns.length = n)
    (hdedup : conns.dedup.length = n) (hlt : ∀ e ∈ conns, e < n) :
    conns.Perm (List.range n) := by
  have hnodup : conns.Nodup := by
    have hsub := List.dedup_sublist conns
    have heq := hsub.eq_of_length (by rw [hdedup, hlen])
    exact List.dedup_eq_self.mp heq
  have hsubset : conns ⊆ List.range n := fun e he => List.mem_range.mpr (hlt e he)
  exact (List.subperm_of_subset hnodup hsubset).perm_of_length_le
    (by rw [List.length_range, hlen])

theorem conns_getD_inj {conns : List ℕ} (hnodup : conns.Nodup) {i j : ℕ}
    (hi : i < conns.length) (hj : j < conns.length)
    (h : conns.getD i 0 = conns.getD j 0) : i = j := by
  rw [List.getD_eq_getElem _ _ hi, List.getD_eq_getElem _ _ hj] at h
  exact hnodup.getElem_inj_iff.mp h

/-- Facts available about an invertible constructed switchboard: the forward
table is a permutation of `range n` and `argsort` is a two-sided inverse of
it at the level of positions. -/
theorem invertible_facts {n : ℕ} {conns : List ℕ} {sb : Switchboard}
    (h : mkSwitchboard n conns = .ok sb) (hinv : sb.is_invertible = true) :
    sb.input_dim = n ∧ sb.output_dim = n ∧ sb.connections = conns ∧
    conns.length = n ∧ conns.Perm (List.range n) ∧
    sb.inverse_connections = some (argsort conns) ∧
    (∀ j, j < n → conns.getD ((argsort conns).getD j 0) 0 = j) ∧
    (∀ j, j < n → (argsort conns).getD j 0 < n) ∧
    (∀ i, i < n → (argsort conns).getD (conns.getD i 0) 0 = i) ∧
    (∀ i, i < n → conns.getD i 0 < n) := by
  obtain ⟨hin, hout, hconn, hne, hmax, hic⟩ := mkSwitchboard_ok h
  have hcond : n = conns.length ∧ conns.dedup.length = n := by
    by_cases hc : n = conns.length ∧ conns.dedup.length = n
    · exact hc
    · exfalso
      simp [Switchboard.is_invertible, hic, if_neg hc] at hinv
  have hlen : conns.length = n := hcond.1.symm
  have hperm : conns.Perm (List.range n) :=
    conns_perm_range hlen hcond.2 fun e he => lt_of_le_of_lt (le_nanmax e he) hmax
  have hsome : sb.inverse_connections = some (argsort conns) := by
    rw [hic, if_pos hcond]
  have hP1 : ∀ j, j < n → conns.getD ((argsort conns).getD j 0) 0 = j :=
    fun j hj => argsort_getD hperm hj
  have hTau : ∀ j, j < n → (argsort conns).getD j 0 < n := by
    intro j hj
    have hjl : j < (argsort conns).length := by rw [argsort_length, hlen]; exact hj
    have hmem : (argsort conns).getD j 0 ∈ argsort conns := by
      rw [List.getD_eq_getElem _ _ hjl]
      exact List.getElem_mem hjl
    have hmr := (argsort_perm_range conns).subset hmem
    rw [hlen] at hmr
    exact List.mem_range.mp hmr
  have hSig : ∀ i, i < n → conns.getD i 0 < n := by
    intro i hi
    have hil : i < conns.length := by rw [hlen]; exact hi
    have hmem : conns.getD i 0 ∈ conns := by
      rw [List.getD_eq_getElem _ _ hil]
      exact List.getElem_mem hil
    exact lt_of_le_of_lt (le_nanmax _ hmem) hmax
  have hnodup : conns.Nodup := hperm.nodup_iff.mpr (List.nodup_range n)
  have hP2 : ∀ i, i < n → (argsort conns).getD (conns.getD i 0) 0 = i := by
    intro i hi
    have hsi := hSig i hi
    exact conns_getD_inj hnodup (by rw [hlen]; exact hTau _ hsi) (by rw [hlen]; exact hi)
      (hP1 (conns.getD i 0) hsi)
  exact ⟨hin, by rw [hout, hlen], hconn, hlen, hperm, hsome, hP1, hTau, hP2, hSig⟩

/-! ### C4: invertibility criterion and correctness of the inverse table -/

/-- C4: for every successfully constructed `Switchboard`, `is_invertible` is
true iff `input_dim = output_dim` and the connection entries are exactly a
permutation of `{0, ..., input_dim - 1}`; and when invertible, the
precomputed inverse table satisfies `connections[inv[j]] = j` at every
position `j < input_dim`. -/
theorem switchboard_invertibility (n : ℕ) (conns : List ℕ) (sb : Switchboard) (j : ℕ)
    (h : mkSwitchboard n conns = .ok sb) (hj : j < sb.input_dim) :
    (sb.is_invertible = true ↔
      sb.input_dim = sb.output_dim ∧ sb.connections.Perm (List.range sb.input_dim)) ∧
    (sb.is_invertible = true →
      sb.connections.getD ((sb.inverse_connections.getD []).getD j 0) 0 = j) := by
  obtain ⟨hin, hout, hconn, hne, hmax, hic⟩ := mkSwitchboard_ok h
  constructor
  · constructor
    · intro hinv
      obtain ⟨_, hodim, _, hlen, hperm, _, _, _, _, _⟩ := invertible_facts h hinv
      exact ⟨by rw [hin, hodim], by rw [hconn, hin]; exact hperm⟩
    · rintro ⟨hdim, hperm⟩
      rw [hconn, hin] at hperm
      have hlen : conns.length = n := by
        rw [hperm.length_eq, List.length_range]
      have hnodup : conns.Nodup := hperm.nodup_iff.mpr (List.nodup_range n)
      have hdedup : conns.dedup.length = n := by
        rw [List.dedup_eq_self.mpr hnodup, hlen]
      simp [Switchboard.is_invertible, hic, if_pos (And.intro hlen.symm hdedup)]
  · intro hinv
    obtain ⟨_, _, _, _, _, hsome, hP1, _, _, _⟩ := invertible_facts h hinv
    rw [hconn, hsome, Option.getD_some]
    exact hP1 j (by rw [hin] at hj; exact hj)

/-- Witness for C4 at `mkSwitchboard 2 [1, 0]`, position `j = 1`. -/
theorem switchboard_invertibility_witness :
    ((Switchboard.mk 2 2 [1, 0] (some [1, 0])).is_invertible = true ↔
      (Switchboard.mk 2 2 [1, 0] (some [1, 0])).input_dim
          = (Switchboard.mk 2 2 [1, 0] (some [1, 0])).output_dim ∧
        (Switchboard.mk 2 2 [1, 0] (some [1, 0])).connections.Perm
          (List.range (Switchboard.mk 2 2 [1, 0] (some [1, 0])).input_dim)) ∧
    ((Switchboard.mk 2 2 [1, 0] (some [1, 0])).is_invertible = true →
      (Switchboard.mk 2 2 [1, 0] (some [1, 0])).connections.getD
          (((Switchboard.mk 2 2 [1, 0] (some [1, 0])).inverse_connections.getD []).getD 1 0) 0
        = 1) :=
  switchboard_invertibility 2 [1, 0] (Switchboard.mk 2 2 [1, 0] (some [1, 0])) 1
    rfl (by decide)

/-! ### C3: round trip through an invertible switchboard -/

/-- C3: for every constructed `Switchboard` whose table is invertible and
every data row `v` of length `input_dim` and `w` of length `output_dim`,
`inverse (execute v) = v` and `execute (inverse w) = w`. -/
theorem switchboard_roundtrip {α : Type} [Inhabited α] (n : ℕ) (conns : List ℕ)
    (sb : Switchboard) (v w : List α)
    (h : mkSwitchboard n conns = .ok sb) (hinv : sb.is_invertible = true)
    (hv : v.length = sb.input_dim) (hw : w.length = sb.output_dim) :
    sb.inverse (sb.execute v) = some v ∧
    Option.map sb.execute (sb.inverse w) = some w := by
  obtain ⟨hin, hout, hconn, hlen, hperm, hsome, hP1, hTau, hP2, hSig⟩ :=
    invertible_facts h hinv
  rw [hin] at hv
  rw [hout] at hw
  constructor
  · simp only [Switchboard.inverse, Switchboard.execute, hsome, hconn, Option.some.injEq]
    apply List.ext_getElem
    · simp [argsort_length, hlen, hv]
    · intro i h1 h2
      have hi : i < n := by
        rw [List.length_map, argsort_length, hlen] at h1
        exact h1
      have hia : i < (argsort conns).length := by rw [argsort_length, hlen]; exact hi
      rw [List.getElem_map]
      have hτ : (argsort conns)[i] = (argsort conns).getD i 0 :=
        (List.getD_eq_getElem _ _ hia).symm
      rw [hτ]
      have hτlt : (argsort conns).getD i 0 < conns.length := by
        rw [hlen]
        exact hTau i hi
      rw [map_getD (fun t => v.getD t default) conns hτlt 0 default, hP1 i hi,
        List.getD_eq_getElem _ _ (by rw [hv]; exact hi)]
  · simp only [Switchboard.inverse, Switchboard.execute, hsome, hconn, Option.map_some',
      Option.some.injEq]
    apply List.ext_getElem
    · simp [hlen, hw]
    · intro i h1 h2
      have hi : i < n := by
        rw [List.length_map, hlen] at h1
        exact h1
      have hic2 : i < conns.length := by rw [hlen]; exact hi
      rw [List.getElem_map]
      have hσ : conns[i] = conns.getD i 0 := (List.getD_eq_getElem _ _ hic2).symm
      rw [hσ]
      have hσlt : conns.getD i 0 < (argsort conns).length := by
        rw [argsort_length, hlen]
        exact hSig i hi
      rw [map_getD (fun t => w.getD t default) (argsort conns) hσlt 0 default, hP2 i hi,
        List.getD_eq_getElem _ _ (by rw [hw]; exact hi)]

/-- Witness for C3 at `mkSwitchboard 2 [1, 0]` with `v = [5, 7]`,
`w = [4, 9]`. -/
theorem switchboard_roundtrip_witness :
    (Switchboard.mk 2 2 [1, 0] (some [1, 0])).inverse
        ((Switchboard.mk 2 2 [1, 0] (some [1, 0])).execute [5, 7]) = some [5, 7] ∧
    Option.map (Switchboard.mk 2 2 [1, 0] (some [1, 0])).execute
        ((Switchboard.mk 2 2 [1, 0] (some [1, 0])).inverse [4, 9]) = some [(4 : ℕ), 9] :=
  switchboard_roundtrip 2 [1, 0] (Switchboard.mk 2 2 [1, 0] (some [1, 0])) [5, 7] [4, 9]
    rfl (by decide) (by decide) (by decide)

/-! ### Index arithmetic for the five-level generation loop nests -/

theorem mul_index_lt {a n b m : ℕ} (ha : a < n) (hb : b < m) : a * m + b < n * m := by
  calc a * m + b < a * m + m := by omega
  _ = (a + 1) * m := by ring
  _ ≤ n * m := Nat.mul_le_mul_right m ha

theorem nest5_length (n1 n2 n3 n4 n5 : ℕ) (g : ℕ → ℕ → ℕ → ℕ → ℕ → ℕ) :
    (rangeFlat n1 fun a => rangeFlat n2 fun b => rangeFlat n3 fun c =>
      rangeFlat n4 fun d => (List.range n5).map fun e => g a b c d e).length
      = n1 * (n2 * (n3 * (n4 * n5))) := by
  apply rangeFlat_length
  intro a _
  apply rangeFlat_length
  intro b _
  apply rangeFlat_length
  intro c _
  apply rangeFlat_length
  intro d _
  simp

theorem nest5_getD (n1 n2 n3 n4 n5 : ℕ) (g : ℕ → ℕ → ℕ → ℕ → ℕ → ℕ)
    {a b c d e : ℕ} (ha : a < n1) (hb : b < n2) (hc : c < n3) (hd : d < n4) (he : e < n5) :
    (rangeFlat n1 fun a => rangeFlat n2 fun b => rangeFlat n3 fun c =>
      rangeFlat n4 fun d => (List.range n5).map fun e => g a b c d e).getD
      ((((a * n2 + b) * n3 + c) * n4 + d) * n5 + e) 0 = g a b c d e := by
  have hb1 : b * n3 + c < n2 * n3 := mul_index_lt hb hc
  have hb2 : (b * n3 + c) * n4 + d < n2 * n3 * n4 := mul_index_lt hb1 hd
  have hb3 : ((b * n3 + c) * n4 + d) * n5 + e < n2 * n3 * n4 * n5 := mul_index_lt hb2 he
  have hc1 : c * n4 + d < n3 * n4 := mul_index_lt hc hd
  have hc2 : (c * n4 + d) * n5 + e < n3 * n4 * n5 := mul_index_lt hc1 he
  have hd1 : d * n5 + e < n4 * n5 := mul_index_lt hd he
  have hpos1 : (((a * n2 + b) * n3 + c) * n4 + d) * n5 + e
      = a * (n2 * (n3 * (n4 * n5))) + (((b * n3 + c) * n4 + d) * n5 + e) := by ring
  rw [hpos1,
    rangeFlat_getD
      (fun i _ => by
        apply rangeFlat_length
        intro p _
        apply rangeFlat_length
        intro q _
        apply rangeFlat_length
        intro t _
        simp)
      ha
      (by
        have he1 : n2 * n3 * n4 * n5 = n2 * (n3 * (n4 * n5)) := by ring
        rw [← he1]
        exact hb3)
      0]
  have hpos2 : ((b * n3 + c) * n4 + d) * n5 + e
      = b * (n3 * (n4 * n5)) + ((c * n4 + d) * n5 + e) := by ring
  rw [hpos2,
    rangeFlat_getD
      (fun i _ => by
        apply rangeFlat_length
        intro q _
        apply rangeFlat_length
        intro t _
        simp)
      hb
      (by
        have he2 : n3 * n4 * n5 = n3 * (n4 * n5) := by ring
        rw [← he2]
        exact hc2)
      0]
  have hpos3 : (c * n4 + d) * n5 + e = c * (n4 * n5) + (d * n5 + e) := by ring
  rw [hpos3,
    rangeFlat_getD
      (fun i _ => by
        apply rangeFlat_length
        intro t _
        simp)
      hc hd1 0]
  have hpos4 : d * n5 + e = d * n5 + e := rfl
  rw [rangeFlat_getD (fun i _ => by simp) hd he 0]
  exact range_map_getD _ he 0

theorem nest5_mem {n1 n2 n3 n4 n5 : ℕ} {g : ℕ → ℕ → ℕ → ℕ → ℕ → ℕ} {x : ℕ} :
    x ∈ (rangeFlat n1 fun a => rangeFlat n2 fun b => rangeFlat n3 fun c =>
        rangeFlat n4 fun d => (List.range n5).map fun e => g a b c d e)
      ↔ ∃ a, a < n1 ∧ ∃ b, b < n2 ∧ ∃ c, c < n3 ∧ ∃ d, d < n4 ∧ ∃ e, e < n5 ∧
          x = g a b c d e := by
  simp only [mem_rangeFlat, List.mem_map, List.mem_range]
  constructor
  · rintro ⟨a, ha, b, hb, c, hc, d, hd, e, he, rfl⟩
    exact ⟨a, ha, b, hb, c, hc, d, hd, e, he, rfl⟩
  · rintro ⟨a, ha, b, hb, c, hc, d, hd, e, he, rfl⟩
    exact ⟨a, ha, b, hb, c, hc, d, hd, e, he, rfl⟩

/-! ### Extraction of the Rectangular2dSwitchboard construction -/

theorem mkRectangular2d_ok {xi yi xf yf xs ys icd : ℕ} {ig : Bool}
    {r : Rectangular2dSwitchboard}
    (h : mkRectangular2d xi yi xf yf xs ys icd ig = .ok r) :
    xf ≤ xi ∧ yf ≤ yi ∧ 0 < xs ∧ 0 < ys ∧
    r.x_out_channels = (xi - xf) / xs + 1 ∧
    r.y_out_channels = (yi - yf) / ys + 1 ∧
    r.x_unused_channels = (xi - xf) % xs ∧
    r.y_unused_channels = (yi - yf) % ys ∧
    mkSwitchboard (xi * yi * icd)
        (rect2dConnections xi xf yf xs ys icd ((xi - xf) / xs + 1) ((yi - yf) / ys + 1))
      = .ok r.cs.sb ∧
    r.cs.out_channel_dim = icd * xf * yf ∧ r.cs.in_channel_dim = icd ∧
    r.cs.output_channels = r.cs.sb.output_dim / (icd * xf * yf) := by
  unfold mkRectangular2d at h
  simp only [] at h
  split at h
  · exact absurd h (by simp)
  · rename_i h1
    split at h
    · exact absurd h (by simp)
    · rename_i h2
      split at h
      · exact absurd h (by simp)
      · rename_i h3
        split at h
        · exact absurd h (by simp)
        · rename_i h4
          split at h
          · exact absurd h (by simp)
          · rename_i h5
            split at h
            · exact absurd h (by simp)
            · rename_i h6
              cases hcs : mkChannelSwitchboard (xi * yi * icd)
                  (rect2dConnections xi xf yf xs ys icd ((xi - xf) / xs + 1)
((yi - yf) / ys + 1))
                  (icd * xf * yf) icd with
              | error e =>
                rw [hcs] at h
                exact absurd h (by simp [Except.map])
              | ok cs =>
                rw [hcs] at h
                simp only [Except.map, Except.ok.injEq] at h
                subst h
                obtain ⟨hsb, hocd, hicd, hoc⟩ := mkChannelSwitchboard_ok hcs
                exact ⟨by omega, by omega, Nat.pos_of_ne_zero h3, Nat.pos_of_ne_zero h5,
                  rfl, rfl, rfl, rfl, hsb, hocd, hicd, hoc⟩

/-! ### C5: generated indices in range and the dimension identities -/

/-- C5: for every accepted `Rectangular2dSwitchboard` parameter set,
`input_dim = x_in_channels * y_in_channels * in_channel_dim`,
`out_channel_dim = in_channel_dim * x_field_channels * y_field_channels`,
`output_dim = x_out_channels * y_out_channels * out_channel_dim` and every
connection-table entry is `< input_dim`. -/
theorem rect2d_bounds (xi yi xf yf xs ys icd : ℕ) (ig : Bool)
    (r : Rectangular2dSwitchboard)
    (h : mkRectangular2d xi yi xf yf xs ys icd ig = .ok r) :
    r.cs.sb.input_dim = xi * yi * icd ∧
    r.cs.out_channel_dim = icd * xf * yf ∧
    r.cs.sb.output_dim = r.x_out_channels * r.y_out_channels * r.cs.out_channel_dim ∧
    r.cs.sb.connections.all (fun e => decide (e < xi * yi * icd)) = true := by
  obtain ⟨hxf, hyf, hxs, hys, hxo, hyo, hxu, hyu, hsb, hocd, hicd, hoc⟩ :=
    mkRectangular2d_ok h
  obtain ⟨hin, hout, hconn, hne, hmax, hic⟩ := mkSwitchboard_ok hsb
  have hlen : (rect2dConnections xi xf yf xs ys icd ((xi - xf) / xs + 1)
      ((yi - yf) / ys + 1)).length
      = ((yi - yf) / ys + 1) * (((xi - xf) / xs + 1) * (xf * (yf * icd))) :=
    nest5_length _ _ _ _ _ _
  refine ⟨hin, hocd, ?_, ?_⟩
  · rw [hout, hlen, hxo, hyo, hocd]
    ring
  · simp only [List.all_eq_true, decide_eq_true_eq]
    intro e he
    rw [hconn] at he
    rw [show rect2dConnections xi xf yf xs ys icd ((xi - xf) / xs + 1) ((yi - yf) / ys + 1)
        = rangeFlat ((yi - yf) / ys + 1) fun yo => rangeFlat ((xi - xf) / xs + 1) fun xo =>
            rangeFlat xf fun dx => rangeFlat yf fun dy => (List.range icd).map fun k =>
              ((yo * ys + dy) * xi + (xo * xs + dx)) * icd + k from rfl] at he
    rw [nest5_mem] at he
    obtain ⟨yo, hyo1, xo, hxo1, dx, hdx, dy, hdy, k, hk, rfl⟩ := he
    have hy1 : yo * ys ≤ yi - yf :=
      le_trans (Nat.mul_le_mul_right ys (by omega)) (Nat.div_mul_le_self _ _)
    have hx1 : xo * xs ≤ xi - xf :=
      le_trans (Nat.mul_le_mul_right xs (by omega)) (Nat.div_mul_le_self _ _)
    have hY : yo * ys + dy < yi := by omega
    have hX : xo * xs + dx < xi := by omega
    have hstep : (yo * ys + dy) * xi + (xo * xs + dx) + 1 ≤ yi * xi := by
      have ha1 : (yo * ys + dy + 1) * xi ≤ yi * xi := Nat.mul_le_mul_right xi (by omega)
      have ha2 : (yo * ys + dy + 1) * xi = (yo * ys + dy) * xi + xi := by ring
      omega
    calc ((yo * ys + dy) * xi + (xo * xs + dx)) * icd + k
        < ((yo * ys + dy) * xi + (xo * xs + dx)) * icd + icd := by omega
      _ = ((yo * ys + dy) * xi + (xo * xs + dx) + 1) * icd := by ring
      _ ≤ yi * xi * icd := Nat.mul_le_mul_right icd hstep
      _ = xi * yi * icd := by ring

/-- Witness for C5 at `x_in = y_in = 2`, `field 2 x 2`, `spacing 1`,
`in_channel_dim 1`. -/
theorem rect2d_bounds_witness :
    (Rectangular2dSwitchboard.mk
        (ChannelSwitchboard.mk (Switchboard.mk 4 4 [0, 2, 1, 3] (some [0, 2, 1, 3])) 4 1 1)
        1 1 0 0).cs.sb.input_dim = 2 * 2 * 1 ∧
    (Rectangular2dSwitchboard.mk
        (ChannelSwitchboard.mk (Switchboard.mk 4 4 [0, 2, 1, 3] (some [0, 2, 1, 3])) 4 1 1)
        1 1 0 0).cs.out_channel_dim = 1 * 2 * 2 ∧
    (Rectangular2dSwitchboard.mk
        (ChannelSwitchboard.mk (Switchboard.mk 4 4 [0, 2, 1, 3] (some [0, 2, 1, 3])) 4 1 1)
        1 1 0 0).cs.sb.output_dim
      = (Rectangular2dSwitchboard.mk
          (ChannelSwitchboard.mk (Switchboard.mk 4 4 [0, 2, 1, 3] (some [0, 2, 1, 3])) 4 1 1)
          1 1 0 0).x_out_channels
        * (Rectangular2dSwitchboard.mk
            (ChannelSwitchboard.mk (Switchboard.mk 4 4 [0, 2, 1, 3] (some [0, 2, 1, 3])) 4 1 1)
            1 1 0 0).y_out_channels
        * (Rectangular2dSwitchboard.mk
            (ChannelSwitchboard.mk (Switchboard.mk 4 4 [0, 2, 1, 3] (some [0, 2, 1, 3])) 4 1 1)
            1 1 0 0).cs.out_channel_dim ∧
    (Rectangular2dSwitchboard.mk
        (ChannelSwitchboard.mk (Switchboard.mk 4 4 [0, 2, 1, 3] (some [0, 2, 1, 3])) 4 1 1)
        1 1 0 0).cs.sb.connections.all (fun e => decide (e < 2 * 2 * 1)) = true :=
  rect2d_bounds 2 2 2 2 1 1 1 false
    (Rectangular2dSwitchboard.mk
      (ChannelSwitchboard.mk (Switchboard.mk 4 4 [0, 2, 1, 3] (some [0, 2, 1, 3])) 4 1 1)
      1 1 0 0) rfl

/-! ### C1 (amended): generation order of the rectangular table -/

/-- C1 (amended): for every `Rectangular2dSwitchboard` whose construction
succeeds, output channels are enumerated with `y_out` outer and `x_out`
inner, and within each output channel the field cells are enumerated with
`x` (columns) as the outer loop and `y` (rows) as the inner loop — not
y-outer/x-inner as the spec text states — each cell contributing
`in_channel_dim` consecutive input slots starting at
`image_to_index(x_start + dx, y_start + dy) * in_channel_dim`. -/
theorem rect2d_generation_order (xi yi xf yf xs ys icd : ℕ) (ig : Bool)
    (r : Rectangular2dSwitchboard)
    (h : mkRectangular2d xi yi xf yf xs ys icd ig = .ok r)
    (y_out_chan x_out_chan dx dy k : ℕ)
    (hyo : y_out_chan < r.y_out_channels) (hxo : x_out_chan < r.x_out_channels)
    (hdx : dx < xf) (hdy : dy < yf) (hk : k < icd) :
    (CoordinateTranslator.mk xi yi).image_to_index
        (x_out_chan * xs + dx) (y_out_chan * ys + dy)
      = some ((y_out_chan * ys + dy) * xi + (x_out_chan * xs + dx)) ∧
    r.cs.sb.connections.getD
        ((((y_out_chan * r.x_out_channels + x_out_chan) * xf + dx) * yf + dy) * icd + k) 0
      = ((y_out_chan * ys + dy) * xi + (x_out_chan * xs + dx)) * icd + k := by
  obtain ⟨hxf, hyf, hxs, hys, hxoc, hyoc, hxu, hyu, hsb, hocd, hicd, hoc⟩ :=
    mkRectangular2d_ok h
  obtain ⟨hin, hout, hconn, hne, hmax, hic⟩ := mkSwitchboard_ok hsb
  rw [hxoc] at hxo
  rw [hyoc] at hyo
  have hy1 : y_out_chan * ys ≤ yi - yf :=
    le_trans (Nat.mul_le_mul_right ys (by omega)) (Nat.div_mul_le_self _ _)
  have hx1 : x_out_chan * xs ≤ xi - xf :=
    le_trans (Nat.mul_le_mul_right xs (by omega)) (Nat.div_mul_le_self _ _)
  have hY : y_out_chan * ys + dy < yi := by omega
  have hX : x_out_chan * xs + dx < xi := by omega
  constructor
  · unfold CoordinateTranslator.image_to_index
    rw [if_pos hX, if_pos hY]
  · rw [hconn, hxoc]
    exact nest5_getD ((yi - yf) / ys + 1) ((xi - xf) / xs + 1) xf yf icd
      (fun yo xo dx dy k => ((yo * ys + dy) * xi + (xo * xs + dx)) * icd + k)
      hyo hxo hdx hdy hk

/-- Witness for C1 at `x_in = y_in = 2`, `field 2 x 2`, `spacing 1`,
`in_channel_dim 1`, cell `(dx, dy) = (1, 0)` of output channel `(0, 0)`. -/
theorem rect2d_generation_order_witness :
    (CoordinateTranslator.mk 2 2).image_to_index (0 * 1 + 1) (0 * 1 + 0)
      = some ((0 * 1 + 0) * 2 + (0 * 1 + 1)) ∧
    (Rectangular2dSwitchboard.mk
        (ChannelSwitchboard.mk (Switchboard.mk 4 4 [0, 2, 1, 3] (some [0, 2, 1, 3])) 4 1 1)
        1 1 0 0).cs.sb.connections.getD
        ((((0 * (Rectangular2dSwitchboard.mk
            (ChannelSwitchboard.mk (Switchboard.mk 4 4 [0, 2, 1, 3] (some [0, 2, 1, 3])) 4 1 1)
            1 1 0 0).x_out_channels + 0) * 2 + 1) * 2 + 0) * 1 + 0) 0
      = ((0 * 1 + 0) * 2 + (0 * 1 + 1)) * 1 + 0 :=
  rect2d_generation_order 2 2 2 2 1 1 1 false
    (Rectangular2dSwitchboard.mk
      (ChannelSwitchboard.mk (Switchboard.mk 4 4 [0, 2, 1, 3] (some [0, 2, 1, 3])) 4 1 1)
      1 1 0 0) rfl 0 0 1 0 0 (by decide) (by decide) (by decide) (by decide) (by decide)

/-! ### Extraction of the DoubleRect2dSwitchboard construction -/

theorem mkDoubleRect2d_ok {xi yi xf yf icd : ℕ} {ig : Bool} {d : DoubleRect2dSwitchboard}
    (h : mkDoubleRect2d xi yi xf yf icd ig = .ok d) :
    xf % 2 = 0 ∧ yf % 2 = 0 ∧ xf ≤ xi ∧ yf ≤ yi ∧ xf ≠ 0 ∧ yf ≠ 0 ∧
    d.x_long_out_channels = xi / xf ∧ d.y_long_out_channels = yi / yf ∧
    mkSwitchboard (xi * yi * icd)
        (doubleRectLongConns xi (xf / 2) (yf / 2) xf yf icd (xi / (2 * (xf / 2)))
            (yi / (2 * (yf / 2)))
          ++ doubleRectShortConns xi (xf / 2) (yf / 2) xf yf icd (xi / (2 * (xf / 2)))
            (yi / (2 * (yf / 2))))
      = .ok d.cs.sb ∧
    d.cs.out_channel_dim = icd * xf * yf ∧ d.cs.in_channel_dim = icd ∧
    d.cs.output_channels = d.cs.sb.output_dim / (icd * xf * yf) := by
  delta mkDoubleRect2d at h
  by_cases hg1 : xf % 2 ≠ 0
  · rw [if_pos hg1] at h
    exact absurd h (by simp)
  rw [if_neg hg1] at h
  by_cases hg2 : yf % 2 ≠ 0
  · rw [if_pos hg2] at h
    exact absurd h (by simp)
  rw [if_neg hg2] at h
  by_cases hg3 : xf > xi
  · rw [if_pos hg3] at h
    exact absurd h (by simp)
  rw [if_neg hg3] at h
  by_cases hg4 : yf > yi
  · rw [if_pos hg4] at h
    exact absurd h (by simp)
  rw [if_neg hg4] at h
  by_cases hg5 : xf = 0
  · rw [if_pos hg5] at h
    exact absurd h (by simp)
  rw [if_neg hg5] at h
  by_cases hg6 : (xi - xf) % (xf / 2) ≠ 0 ∧ ig = false
  · rw [if_pos hg6] at h
    exact absurd h (by simp)
  rw [if_neg hg6] at h
  by_cases hg7 : xf / 2 ≤ xi - xi / xf * xf
  · rw [if_pos hg7] at h
    exact absurd h (by simp)
  rw [if_neg hg7] at h
  by_cases hg8 : yf = 0
  · rw [if_pos hg8] at h
    exact absurd h (by simp)
  rw [if_neg hg8] at h
  by_cases hg9 : (yi - yf) % (yf / 2) ≠ 0 ∧ ig = false
  · rw [if_pos hg9] at h
    exact absurd h (by simp)
  rw [if_neg hg9] at h
  by_cases hg10 : yf / 2 ≤ yi - yi / yf * yf
  · rw [if_pos hg10] at h
    exact absurd h (by simp)
  rw [if_neg hg10] at h
  cases hcs : mkChannelSwitchboard (xi * yi * icd)
      (doubleRectLongConns xi (xf / 2) (yf / 2) xf yf icd (xi / (2 * (xf / 2)))
          (yi / (2 * (yf / 2)))
        ++ doubleRectShortConns xi (xf / 2) (yf / 2) xf yf icd (xi / (2 * (xf / 2)))
          (yi / (2 * (yf / 2))))
      (icd * xf * yf) icd with
  | error e =>
    rw [hcs] at h
    exact absurd h (by simp [Except.map])
  | ok cs =>
    rw [hcs] at h
    simp only [Except.map, Except.ok.injEq] at h
    subst h
    obtain ⟨hsb, hocd, hicd, hoc⟩ := mkChannelSwitchboard_ok hcs
    exact ⟨by omega, by omega, by omega, by omega, by omega, by omega, rfl, rfl,
      hsb, hocd, hicd, hoc⟩

/-! ### C6: layout of the double-rectangular connection table -/

/-- C6: for every successfully constructed `DoubleRect2dSwitchboard`, the
total output-channel count equals
`x_long * y_long + (x_long - 1) * (y_long - 1)`, the connection table is the
long-row (aligned) block followed by the short-row (offset) block, and the
long block occupies exactly the first
`x_long * y_long * out_channel_dim` positions — so every short-row channel
sits strictly after every long-row channel. -/
theorem doubleRect2d_layout (xi yi xf yf icd : ℕ) (ig : Bool) (d : DoubleRect2dSwitchboard)
    (h : mkDoubleRect2d xi yi xf yf icd ig = .ok d) :
    d.cs.output_channels
        = doubleRectOutChannels d.x_long_out_channels d.y_long_out_channels ∧
    d.cs.sb.connections
        = doubleRectLongConns xi (xf / 2) (yf / 2) xf yf icd d.x_long_out_channels
            d.y_long_out_channels
          ++ doubleRectShortConns xi (xf / 2) (yf / 2) xf yf icd d.x_long_out_channels
            d.y_long_out_channels ∧
    (doubleRectLongConns xi (xf / 2) (yf / 2) xf yf icd d.x_long_out_channels
        d.y_long_out_channels).length
      = d.x_long_out_channels * d.y_long_out_channels * d.cs.out_channel_dim := by
  obtain ⟨hx2, hy2, hxle, hyle, hx0, hy0, hxl, hyl, hsb, hocd, hicd, hoc⟩ :=
    mkDoubleRect2d_ok h
  obtain ⟨hin, hout, hconn, hne, hmax, hic⟩ := mkSwitchboard_ok hsb
  have hxf2 : 2 * (xf / 2) = xf := Nat.mul_div_cancel' (Nat.dvd_of_mod_eq_zero hx2)
  have hyf2 : 2 * (yf / 2) = yf := Nat.mul_div_cancel' (Nat.dvd_of_mod_eq_zero hy2)
  have hexo : xi / (2 * (xf / 2)) = d.x_long_out_channels := by rw [hxf2, hxl]
  have heyo : yi / (2 * (yf / 2)) = d.y_long_out_channels := by rw [hyf2, hyl]
  rw [hexo, heyo] at hconn hout hne
  have hlenL : (doubleRectLongConns xi (xf / 2) (yf / 2) xf yf icd d.x_long_out_channels
      d.y_long_out_channels).length
      = d.y_long_out_channels * (d.x_long_out_channels * (yf * (xf * icd))) :=
    nest5_length _ _ _ _ _ _
  have hlenS : (doubleRectShortConns xi (xf / 2) (yf / 2) xf yf icd d.x_long_out_channels
      d.y_long_out_channels).length
      = (d.y_long_out_channels - 1) * ((d.x_long_out_channels - 1) * (yf * (xf * icd))) :=
    nest5_length _ _ _ _ _ _
  have houtdim : d.cs.sb.output_dim
      = (d.x_long_out_channels * d.y_long_out_channels
          + (d.x_long_out_channels - 1) * (d.y_long_out_channels - 1)) * (yf * (xf * icd)) := by
    rw [hout, List.length_append, hlenL, hlenS]
    ring
  have hne0 : d.cs.sb.output_dim ≠ 0 := by
    rw [hout]
    intro hc
    exact hne (List.length_eq_zero.mp hc)
  have hM0 : 0 < yf * (xf * icd) := by
    rcases Nat.eq_zero_or_pos (yf * (xf * icd)) with hz | hp
    · rw [houtdim, hz, Nat.mul_zero] at hne0
      exact absurd rfl hne0
    · exact hp
  refine ⟨?_, hconn, ?_⟩
  · rw [hoc, houtdim, doubleRectOutChannels]
    rw [show yf * (xf * icd) = icd * xf * yf from by ring] at hM0 ⊢
    exact Nat.mul_div_cancel _ hM0
  · rw [hlenL, hocd]
    ring

/-- Witness for C6 at `x_in = y_in = 2`, `field 2 x 2`, `in_channel_dim 1`
(one long channel, no short channels). -/
theorem doubleRect2d_layout_witness :
    (DoubleRect2dSwitchboard.mk
        (ChannelSwitchboard.mk (Switchboard.mk 4 4 [0, 1, 2, 3] (some [0, 1, 2, 3])) 4 1 1)
        1 1 0 0).cs.output_channels
      = doubleRectOutChannels
          (DoubleRect2dSwitchboard.mk
            (ChannelSwitchboard.mk (Switchboard.mk 4 4 [0, 1, 2, 3] (some [0, 1, 2, 3])) 4 1 1)
            1 1 0 0).x_long_out_channels
          (DoubleRect2dSwitchboard.mk
            (ChannelSwitchboard.mk (Switchboard.mk 4 4 [0, 1, 2, 3] (some [0, 1, 2, 3])) 4 1 1)
            1 1 0 0).y_long_out_channels ∧
    (DoubleRect2dSwitchboard.mk
        (ChannelSwitchboard.mk (Switchboard.mk 4 4 [0, 1, 2, 3] (some [0, 1, 2, 3])) 4 1 1)
        1 1 0 0).cs.sb.connections
      = doubleRectLongConns 2 (2 / 2) (2 / 2) 2 2 1
          (DoubleRect2dSwitchboard.mk
            (ChannelSwitchboard.mk (Switchboard.mk 4 4 [0, 1, 2, 3] (some [0, 1, 2, 3])) 4 1 1)
            1 1 0 0).x_long_out_channels
          (DoubleRect2dSwitchboard.mk
            (ChannelSwitchboard.mk (Switchboard.mk 4 4 [0, 1, 2, 3] (some [0, 1, 2, 3])) 4 1 1)
            1 1 0 0).y_long_out_channels
        ++ doubleRectShortConns 2 (2 / 2) (2 / 2) 2 2 1
          (DoubleRect2dSwitchboard.mk
            (ChannelSwitchboard.mk (Switchboard.mk 4 4 [0, 1, 2, 3] (some [0, 1, 2, 3])) 4 1 1)
            1 1 0 0).x_long_out_channels
          (DoubleRect2dSwitchboard.mk
            (ChannelSwitchboard.mk (Switchboard.mk 4 4 [0, 1, 2, 3] (some [0, 1, 2, 3])) 4 1 1)
            1 1 0 0).y_long_out_channels ∧
    (doubleRectLongConns 2 (2 / 2) (2 / 2) 2 2 1
        (DoubleRect2dSwitchboard.mk
          (ChannelSwitchboard.mk (Switchboard.mk 4 4 [0, 1, 2, 3] (some [0, 1, 2, 3])) 4 1 1)
          1 1 0 0).x_long_out_channels
        (DoubleRect2dSwitchboard.mk
          (ChannelSwitchboard.mk (Switchboard.mk 4 4 [0, 1, 2, 3] (some [0, 1, 2, 3])) 4 1 1)
          1 1 0 0).y_long_out_channels).length
      = (DoubleRect2dSwitchboard.mk
          (ChannelSwitchboard.mk (Switchboard.mk 4 4 [0, 1, 2, 3] (some [0, 1, 2, 3])) 4 1 1)
          1 1 0 0).x_long_out_channels
        * (DoubleRect2dSwitchboard.mk
            (ChannelSwitchboard.mk (Switchboard.mk 4 4 [0, 1, 2, 3] (some [0, 1, 2, 3])) 4 1 1)
            1 1 0 0).y_long_out_channels
        * (DoubleRect2dSwitchboard.mk
            (ChannelSwitchboard.mk (Switchboard.mk 4 4 [0, 1, 2, 3] (some [0, 1, 2, 3])) 4 1 1)
            1 1 0 0).cs.out_channel_dim :=
  doubleRect2d_layout 2 2 2 2 1 false
    (DoubleRect2dSwitchboard.mk
      (ChannelSwitchboard.mk (Switchboard.mk 4 4 [0, 1, 2, 3] (some [0, 1, 2, 3])) 4 1 1)
      1 1 0 0) rfl

/-! ### Extraction of the DoubleRhomb2dSwitchboard setup -/

theorem mkDoubleRhombSetup_ok {xl yl diag icd : ℕ} {st : DoubleRhombSetup}
    (h : mkDoubleRhombSetup xl yl diag icd = .ok st) :
    diag % 2 = 0 ∧ diag ≠ 0 ∧
    ¬(rhombXRange xl yl diag % ((diag : ℤ) / 2) ≠ 0 ∨ rhombXRange xl yl diag < 0) ∧
    ¬(rhombYRange xl yl diag % ((diag : ℤ) / 2) ≠ 0 ∨ rhombYRange xl yl diag < 0) ∧
    st.input_dim = (2 * xl * yl + 1 - xl - yl) * icd := by
  unfold mkDoubleRhombSetup at h
  split at h
  · exact absurd h (by simp)
  · rename_i hg1
    split at h
    · exact absurd h (by simp)
    · rename_i hg2
      split at h
      · exact absurd h (by simp)
      · rename_i hg3
        split at h
        · exact absurd h (by simp)
        · rename_i hg4
          simp only [Except.ok.injEq] at h
          subst h
          exact ⟨by omega, hg2, hg3, hg4, rfl⟩

/-! ### C7: the rhombic field-compatibility check -/

/-- C7 (amended): after the even-field-size check passes (even positive
`diag_field_channels`), construction raises `IncompatibleFieldSize` iff
`diag_field_channels / 2` — not `diag_field_channels` itself, as the spec
text states — fails to divide the derived usable field-placement range on
some axis, or that range is negative. -/
theorem doubleRhomb_field_size_check (xl yl diag icd : ℕ)
    (heven : diag % 2 = 0) (hpos : 0 < diag) :
    mkDoubleRhombSetup xl yl diag icd = .error .incompatibleFieldSize
      ↔ (¬ ((diag : ℤ) / 2 ∣ rhombXRange xl yl diag) ∨ rhombXRange xl yl diag < 0
          ∨ ¬ ((diag : ℤ) / 2 ∣ rhombYRange xl yl diag) ∨ rhombYRange xl yl diag < 0) := by
  unfold mkDoubleRhombSetup
  rw [if_neg (by omega), if_neg (by omega)]
  split
  · rename_i hcond
    constructor
    · intro _
      rcases hcond with hc | hc
      · exact Or.inl fun hd => hc (Int.emod_eq_zero_of_dvd hd)
      · exact Or.inr (Or.inl hc)
    · intro _
      rfl
  · rename_i hcond1
    split
    · rename_i hcond2
      constructor
      · intro _
        rcases hcond2 with hc | hc
        · exact Or.inr (Or.inr (Or.inl fun hd => hc (Int.emod_eq_zero_of_dvd hd)))
        · exact Or.inr (Or.inr (Or.inr hc))
      · intro _
        rfl
    · rename_i hcond2
      push_neg at hcond1 hcond2
      constructor
      · intro hcontra
        exact absurd hcontra (by simp)
      · intro hrhs
        exfalso
        rcases hrhs with hc | hc | hc | hc
        · exact hc (Int.dvd_of_emod_eq_zero hcond1.1)
        · exact absurd hc (not_lt.mpr hcond1.2)
        · exact hc (Int.dvd_of_emod_eq_zero hcond2.1)
        · exact absurd hc (not_lt.mpr hcond2.2)

/-- Witness for C7 at `x_long = y_long = 4`, `diag = 4`: the x-range is
`4 - 1 - 4 = -1 < 0`, so the check raises. -/
theorem doubleRhomb_field_size_check_witness :
    mkDoubleRhombSetup 4 4 4 1 = .error .incompatibleFieldSize
      ↔ (¬ ((4 : ℤ) / 2 ∣ rhombXRange 4 4 4) ∨ rhombXRange 4 4 4 < 0
          ∨ ¬ ((4 : ℤ) / 2 ∣ rhombYRange 4 4 4) ∨ rhombYRange 4 4 4 < 0) :=
  doubleRhomb_field_size_check 4 4 4 1 (by decide) (by decide)

/-- C7 counterexample: at `x_long = 7, y_long = 6, diag = 4` the usable
x-range is `7 - 1 - 4 = 2`, which `diag = 4` does not divide, yet the code
checks divisibility by `diag // 2 = 2` and construction passes the check —
so the claimed divisor (`diag_field_channels` itself) is wrong. -/
theorem doubleRhomb_divisibility_counterexample :
    (mkDoubleRhombSetup 7 6 4 1).toOption.isSome = true ∧
    rhombXRange 7 6 4 = 2 ∧ ¬ ((4 : ℤ) ∣ rhombXRange 7 6 4) := by
  refine ⟨by decide, by decide, ?_⟩
  intro hdvd
  have h2 : rhombXRange 7 6 4 = 2 := by decide
  rw [h2] at hdvd
  obtain ⟨k, hk⟩ := hdvd
  omega

/-! ### C10: rhombic input dimension matches the double-rect output layout -/

/-- C10: for every `DoubleRhomb2dSwitchboard` setup that succeeds with
long-grid dimensions `x_long, y_long`, the input dimension equals
`(2 * x_long * y_long - x_long - y_long + 1) * in_channel_dim`, which equals
`(x_long * y_long + (x_long - 1) * (y_long - 1)) * in_channel_dim` — exactly
`in_channel_dim` times the output-channel count of the rhombic lattice that
`DoubleRect2dSwitchboard` produces (`doubleRectOutChannels`). -/
theorem doubleRhomb_input_dim (xl yl diag icd : ℕ) (st : DoubleRhombSetup)
    (h : mkDoubleRhombSetup xl yl diag icd = .ok st) :
    st.input_dim = (2 * xl * yl + 1 - xl - yl) * icd ∧
    st.input_dim = doubleRectOutChannels xl yl * icd := by
  obtain ⟨heven, h0, hxr, hyr, hin⟩ := mkDoubleRhombSetup_ok h
  push_neg at hxr hyr
  have hd2 : 2 ≤ diag := by omega
  have hxr0 : 0 ≤ rhombXRange xl yl diag := hxr.2
  have hyr0 : 0 ≤ rhombYRange xl yl diag := hyr.2
  have hxl2 : 2 ≤ xl := by
    unfold rhombXRange rhombStartedInShort at hxr0
    split at hxr0 <;> omega
  have hyl2 : 2 ≤ yl := by
    unfold rhombYRange rhombStartedInShort at hyr0
    split at hyr0 <;> omega
  refine ⟨hin, ?_⟩
  rw [hin, doubleRectOutChannels]
  congr 1
  obtain ⟨a, rfl⟩ : ∃ a, xl = a + 2 := ⟨xl - 2, by omega⟩
  obtain ⟨b, rfl⟩ : ∃ b, yl = b + 2 := ⟨yl - 2, by omega⟩
  have e1 : a + 2 - 1 = a + 1 := by omega
  have e2 : b + 2 - 1 = b + 1 := by omega
  rw [e1, e2]
  apply Nat.sub_eq_of_eq_add
  apply Nat.sub_eq_of_eq_add
  ring

/-- Witness for C10 at `x_long = y_long = 4`, `diag = 2`, `in_channel_dim 1`:
`input_dim = 25 = 4 * 4 + 3 * 3`. -/
theorem doubleRhomb_input_dim_witness :
    (DoubleRhombSetup.mk 0 1 2 25 4 2 3).input_dim = (2 * 4 * 4 + 1 - 4 - 4) * 1 ∧
    (DoubleRhombSetup.mk 0 1 2 25 4 2 3).input_dim = doubleRectOutChannels 4 4 * 1 :=
  doubleRhomb_input_dim 4 4 2 1 (DoubleRhombSetup.mk 0 1 2 25 4 2 3) rfl

end MdpSwitchboard
